import Mathlib

/-!
Shallow embedding of `lib/tbinary.js` (the BSON `Binary` value type).

Modelling conventions:
* A node.js `Buffer` is a `List Nat` of byte values; an index assignment
  `buf[i] = v` stores `v & 255` when `i < buf.length` and is a silent no-op
  otherwise, which is exactly `List.set` composed with `% 256`.
* A JavaScript string is a `List Nat` of its UTF-16 code units
  (`charCodeAt` values); the strings appearing below contain no surrogate
  pairs, so each code unit is a code point.
* `new Buffer(string)` (via safe-buffer) encodes the string as UTF-8;
  `buffer.toString('binary', a, b)` turns each byte into one character code.
* Freshly allocated buffer regions are modelled as zero bytes (modern node
  zero-fills); no claim depends on the fill value.
* Fallible operations return `Except String`.
-/

namespace TBinary

/-- `Binary.BUFFER_SIZE` from the source: the default allocation / growth
increment. -/
def BUFFER_SIZE : Nat := 256

/-- UTF-8 encoding of one code point below 0x10000 (what `new Buffer(string)`
does per character for surrogate-free strings). -/
def utf8EncodeChar (c : Nat) : List Nat :=
  if c < 128 then [c]
  else if c < 2048 then [192 + c / 64, 128 + c % 64]
  else [224 + c / 4096, 128 + c / 64 % 64, 128 + c % 64]

/-- UTF-8 encoding of a whole string (list of code units). -/
def utf8Encode (s : List Nat) : List Nat :=
  (s.map utf8EncodeChar).flatten

/-- The state of a `Binary` instance: subtype tag, backing store
(`this.buffer`, capacity = `buffer.length`) and the cursor `this.position`. -/
structure Binary where
  sub_type : Nat
  buffer : List Nat
  position : Nat
deriving Repr, DecidableEq

/-- `new Binary()` — no arguments: default subtype 0, fresh buffer of
`BUFFER_SIZE` bytes, position 0. -/
def Binary.mkEmpty : Binary :=
  { sub_type := 0, buffer := List.replicate BUFFER_SIZE 0, position := 0 }

/-- `new Binary(subType)` with a numeric first argument: like `mkEmpty` but
with the given subtype. -/
def Binary.ofSubtype (st : Nat) : Binary :=
  { sub_type := st, buffer := List.replicate BUFFER_SIZE 0, position := 0 }

/-- `new Binary(buffer, subType?)` with a `Buffer`/byte-array argument:
the store is the given bytes, `position = buffer.length`. -/
def Binary.ofBytes (bs : List Nat) (st : Option Nat) : Binary :=
  { sub_type := st.getD 0, buffer := bs, position := bs.length }

/-- `new Binary(string, subType?)` with a string argument: the source runs
`this.buffer = new Buffer(buffer)` — UTF-8 encoding — and then sets
`this.position = buffer.length`, the length of the *string* in code units. -/
def Binary.ofString (s : List Nat) (st : Option Nat) : Binary :=
  { sub_type := st.getD 0, buffer := utf8Encode s, position := s.length }

/-- The argument of `put`: a JS number, a JS string (code units), or a byte
array / Uint8Array. -/
inductive PutArg where
  | num (v : Int)
  | str (s : List Nat)
  | arr (l : List Nat)
deriving Repr, DecidableEq

/-- `byte_value['length'] != null && !_.isNumber(byte_value)`: true for the
string and array shapes. -/
def PutArg.hasLength : PutArg → Bool
  | .num _ => false
  | .str _ => true
  | .arr _ => true

/-- `byte_value.length != 1` for the shapes that have a length. -/
def PutArg.lengthNe1 : PutArg → Bool
  | .num _ => false
  | .str s => s.length != 1
  | .arr l => l.length != 1

/-- Line 74 of the source: `!_.isNumber(byte_value) && byte_value < 0 ||
byte_value > 255`.  JS `&&` binds tighter than `||`, so for a *number* `v`
the condition is just `v > 255` — negative numbers pass.  For a string,
`ToNumber` of a single character is `NaN` or a digit value 0–9, so both
comparisons are false.  For an array, `ToNumber([x]) = x` for a singleton
(and `NaN` for other lengths), so a singleton throws iff its element
exceeds 255. -/
def PutArg.rangeThrows : PutArg → Bool
  | .num v => v > 255
  | .str _ => false
  | .arr l => match l with
      | [x] => x > 255
      | _ => false

/-- The `decoded_byte` computed by `put`: `charCodeAt(0)` for strings,
element 0 for arrays, the number itself otherwise. -/
def PutArg.decoded : PutArg → Int
  | .num v => v
  | .str s => (s.headD 0 : Int)
  | .arr l => (l.headD 0 : Int)

/-- The value a buffer index assignment actually stores: `v & 255`. -/
def byteOf (v : Int) : Nat := (v % 256).toNat

/-- `Binary.prototype.put(byte_value)` on a `Buffer`-backed instance.
Checks the two throw conditions, then either writes in place (when
`buffer.length > position`) or reallocates to `BUFFER_SIZE + buffer.length`
bytes, copies the old content to the front, and writes; `position` is
incremented in both success branches. -/
def Binary.put (b : Binary) (a : PutArg) : Except String Binary :=
  if a.hasLength && a.lengthNe1 then
    .error "only accepts single character String, Uint8Array or Array"
  else if a.rangeThrows then
    .error "only accepts number in a valid unsigned byte range 0-255"
  else
    let d := byteOf a.decoded
    if b.buffer.length > b.position then
      .ok { b with buffer := b.buffer.set b.position d,
                   position := b.position + 1 }
    else
      .ok { b with buffer := (b.buffer ++ List.replicate BUFFER_SIZE 0).set b.position d,
                   position := b.position + 1 }

/-- The byte-copy loop of `write`: `for k: this.buffer[offset++] = data[k]`
(out-of-range assignments are no-ops, values are masked to a byte).  The
`string.copy(this.buffer, offset, 0, string.length)` branch taken for
`Buffer` data produces the same store contents, since `copy` clamps to the
target's length. -/
def writeBytes : List Nat → Nat → List Nat → List Nat
  | buf, _, [] => buf
  | buf, off, d :: ds => writeBytes (buf.set off (d % 256)) (off + 1) ds

/-- `Binary.prototype.write(data, offset)` on a `Buffer`-backed instance,
for byte-sequence data.  `offset` defaults to `position`; if
`buffer.length < offset + data.length` the store is reallocated to
`buffer.length + data.length` bytes with the old content copied to the
front; the bytes are then copied in starting at `offset`, and
`position = max(position, offset + data.length)`. -/
def Binary.write (b : Binary) (data : List Nat) (off : Option Nat) : Binary :=
  let offset := off.getD b.position
  let buf :=
    if b.buffer.length < offset + data.length then
      b.buffer ++ List.replicate data.length 0
    else
      b.buffer
  { b with buffer := writeBytes buf offset data,
           position := max b.position (offset + data.length) }

/-- The effective length used by `read`:
`length && length > 0 ? length : this.position`. -/
def effectiveLen (b : Binary) (len : Option Int) : Nat :=
  match len with
  | some l => if 0 < l then l.toNat else b.position
  | none => b.position

/-- `Binary.prototype.read(position, length)` on a `Buffer`-backed instance:
`this.buffer.slice(position, position + length)`, with JS slice clamping.
It contains no bounds check and never throws. -/
def Binary.read (b : Binary) (p : Nat) (len : Option Int) : List Nat :=
  (b.buffer.drop p).take (effectiveLen b len)

/-- `value(false)` on a `Buffer`-backed instance:
`this.buffer.toString('binary', 0, this.position)` — each byte of
`buffer[0, position)` becomes one character code. -/
def Binary.valueStr (b : Binary) : List Nat :=
  b.buffer.take b.position

/-- `value(true)` on a `Buffer`-backed instance:
`this.buffer.slice(0, this.position)`. -/
def Binary.valueRaw (b : Binary) : List Nat :=
  b.buffer.take b.position

/-- The base64 alphabet. -/
def base64Table : List Char :=
  "ABCDEFGHIJKLMNOPQRSTUVWXYZabcdefghijklmnopqrstuvwxyz0123456789+/".toList

/-- Character for a 6-bit group. -/
def b64c (n : Nat) : Char := base64Table.getD n 'A'

/-- Standard base64 of a byte list, with `=` padding. -/
def base64Encode : List Nat → List Char
  | [] => []
  | [a] => [b64c (a / 4 % 64), b64c (a % 4 * 16), '=', '=']
  | [a, b] => [b64c (a / 4 % 64), b64c (a % 4 * 16 + b / 16 % 16), b64c (b % 16 * 4), '=']
  | a :: b :: c :: rest =>
      b64c (a / 4 % 64) :: b64c (a % 4 * 16 + b / 16 % 16) ::
      b64c (b % 16 * 4 + c / 64 % 4) :: b64c (c % 64) :: base64Encode rest

/-- `buffer.toString('base64', start, end)` (defaults: the whole buffer). -/
def bufferToBase64 (buf : List Nat) (start stop : Nat) : List Char :=
  base64Encode ((buf.take stop).drop start)

/-- `Binary.prototype.toJSON`: `this.buffer.toString('base64')` — the range
arguments default to the entire buffer, not `[0, position)`. -/
def Binary.toJSON (b : Binary) : List Char :=
  bufferToBase64 b.buffer 0 b.buffer.length

/-! ### Helper lemmas about the embedded operations -/

theorem length_writeBytes (data : List Nat) : ∀ (buf : List Nat) (off : Nat),
    (writeBytes buf off data).length = buf.length := by
  induction data with
  | nil => intro buf off; rfl
  | cons d ds ih => intro buf off; simp [writeBytes, ih]

theorem getElem?_writeBytes_low (data : List Nat) : ∀ (buf : List Nat) (off i : Nat),
    i < off → (writeBytes buf off data)[i]? = buf[i]? := by
  induction data with
  | nil => intro buf off i _; rfl
  | cons d ds ih =>
    intro buf off i h
    show (writeBytes (buf.set off (d % 256)) (off + 1) ds)[i]? = buf[i]?
    rw [ih _ _ _ (by omega), List.getElem?_set_ne (by omega)]

theorem getElem?_writeBytes_high (data : List Nat) : ∀ (buf : List Nat) (off i : Nat),
    off + data.length ≤ i → (writeBytes buf off data)[i]? = buf[i]? := by
  induction data with
  | nil => intro buf off i _; rfl
  | cons d ds ih =>
    intro buf off i h
    simp only [List.length_cons] at h
    show (writeBytes (buf.set off (d % 256)) (off + 1) ds)[i]? = buf[i]?
    rw [ih _ _ _ (by omega), List.getElem?_set_ne (by omega)]

theorem getElem?_writeBytes_data (data : List Nat) : ∀ (buf : List Nat) (off k : Nat)
    (hk : k < data.length), off + k < buf.length →
    (writeBytes buf off data)[off + k]? = some (data[k] % 256) := by
  induction data with
  | nil => intro buf off k hk _; simp at hk
  | cons d ds ih =>
    intro buf off k hk hlt
    show (writeBytes (buf.set off (d % 256)) (off + 1) ds)[off + k]? = _
    match k with
    | 0 =>
      rw [getElem?_writeBytes_low ds _ _ _ (by omega)]
      simpa using List.getElem?_set_self (l := buf) (a := d % 256) (by omega)
    | k + 1 =>
      have hk' : k < ds.length := by simpa using hk
      have := ih (buf.set off (d % 256)) (off + 1) k hk' (by simpa using (by omega : off + 1 + k < buf.length))
      have harith : off + (k + 1) = off + 1 + k := by omega
      rw [harith, this]
      simp

theorem one_le_length_utf8EncodeChar (c : Nat) : 1 ≤ (utf8EncodeChar c).length := by
  unfold utf8EncodeChar
  split
  · simp
  · split <;> simp

theorem utf8Encode_cons (c : Nat) (cs : List Nat) :
    utf8Encode (c :: cs) = utf8EncodeChar c ++ utf8Encode cs := rfl

theorem length_le_length_utf8Encode (s : List Nat) : s.length ≤ (utf8Encode s).length := by
  induction s with
  | nil => simp [utf8Encode]
  | cons c cs ih =>
    rw [utf8Encode_cons]
    have := one_le_length_utf8EncodeChar c
    simp only [List.length_cons, List.length_append]
    omega

/-- Success-shape inversion for `put`: a successful call increments the
cursor and either wrote in place or into the reallocated store. -/
theorem put_ok_inv {b : Binary} {a : PutArg} {b' : Binary} (h : b.put a = .ok b') :
    b'.position = b.position + 1 ∧ b'.sub_type = b.sub_type ∧
    ((b.position < b.buffer.length ∧
        b'.buffer = b.buffer.set b.position (byteOf a.decoded)) ∨
     (b.buffer.length ≤ b.position ∧
        b'.buffer = (b.buffer ++ List.replicate BUFFER_SIZE 0).set b.position (byteOf a.decoded))) := by
  unfold Binary.put at h
  split at h
  · exact absurd h (by simp)
  · split at h
    · exact absurd h (by simp)
    · split at h
      next hlt =>
        injection h with h
        subst h
        exact ⟨rfl, rfl, Or.inl ⟨hlt, rfl⟩⟩
      next hge =>
        injection h with h
        subst h
        exact ⟨rfl, rfl, Or.inr ⟨by omega, rfl⟩⟩

/-- The store after `write` and the new cursor, unconditionally. -/
theorem write_unfold (b : Binary) (data : List Nat) (offset : Nat) :
    b.write data (some offset) =
      { b with
        buffer := writeBytes
          (if b.buffer.length < offset + data.length then
            b.buffer ++ List.replicate data.length 0
          else b.buffer) offset data,
        position := max b.position (offset + data.length) } := rfl

theorem write_buffer_eq (b : Binary) (data : List Nat) (offset : Nat) :
    (b.write data (some offset)).buffer =
      writeBytes
        (if b.buffer.length < offset + data.length then
          b.buffer ++ List.replicate data.length 0
        else b.buffer) offset data := rfl

theorem write_position_eq (b : Binary) (data : List Nat) (off : Option Nat) :
    (b.write data off).position = max b.position (off.getD b.position + data.length) := rfl

theorem length_write_buffer (b : Binary) (data : List Nat) (off : Option Nat) :
    (b.write data off).buffer.length =
      if b.buffer.length < off.getD b.position + data.length then
        b.buffer.length + data.length
      else b.buffer.length := by
  unfold Binary.write
  simp only [length_writeBytes]
  split <;> simp

/-! ### Claim theorems -/

set_option maxRecDepth 10000 in
/-- C2: the claim says `put` rejects every numeric input outside 0–255, in
particular every negative number, and this is what the source's own error
message ("only accepts number in a valid unsigned byte range 0-255")
promises.  But in `!_.isNumber(byte_value) && byte_value < 0 || byte_value > 255`
the `&&` binds tighter than `||`, so for a number only `> 255` is checked:
`put(-1)` on a fresh instance is *accepted* and stores `-1 & 255 = 255` at
offset 0. -/
theorem C2_put_accepts_negative :
    Binary.mkEmpty.put (PutArg.num (-1)) =
      Except.ok { sub_type := 0, buffer := (List.replicate 256 0).set 0 255,
                  position := 1 } := by rfl

/-- C3: the claim (and the spec) demand an `OutOfRange` error when the
requested window `[position, position + length)` extends past the store's
capacity.  The source's `read` has no bounds check at all: it returns
`buffer.slice(position, position + length)`, which silently clamps.  On a
3-byte store, `read(0, 10)` returns the 3 available bytes instead of
raising. -/
theorem C3_read_silently_truncates :
    (Binary.ofBytes [1, 2, 3] none).read 0 (some 10) = [1, 2, 3] := by decide

/-- C4: the claim says construction from a text string stores one byte per
character (code point mod 256) with `position = capacity = s.length`.  The
source runs `this.buffer = new Buffer(string)`, which encodes **UTF-8**
(the rest of the class uses the single-byte 'binary' encoding), and sets
`position` to the string's character length.  For the one-character string
"é" (code 233) the store is the two UTF-8 bytes `[195, 169]`, capacity 2,
while `position = 1`. -/
theorem C4_construct_string_is_utf8 :
    (Binary.ofString [233] none).buffer = [195, 169] ∧
    (Binary.ofString [233] none).buffer.length = 2 ∧
    (Binary.ofString [233] none).position = 1 := by decide

/-- C5: the claimed round-trip (construct from a string whose character
codes are all ≤ 255, then non-raw extraction returns the same string)
fails for "é" (code 233): construction stores UTF-8 `[195, 169]` with
`position = 1`, and `value(false)` decodes byte 195 with the 'binary'
encoding, returning the one-character string "Ã" (code 195). -/
theorem C5_roundtrip_fails_high_char :
    (Binary.ofString [233] none).valueStr = [195] ∧
    (Binary.ofString [233] none).valueStr ≠ [233] := by decide

/-- C9: `toJSON` base64-encodes the **entire** backing store — the
`toString('base64')` range defaults to the whole buffer — and in
particular, whenever `position < capacity`, its output differs from the
base64 of the logical content `[0, position)` alone. -/
theorem C9_toJSON_encodes_whole_store :
    (∀ b : Binary, b.toJSON = base64Encode b.buffer) ∧
    (Binary.mk 0 [1, 2, 3, 4] 2).toJSON ≠
      base64Encode ((Binary.mk 0 [1, 2, 3, 4] 2).buffer.take
        (Binary.mk 0 [1, 2, 3, 4] 2).position) := by
  constructor
  · intro b
    simp [Binary.toJSON, bufferToBase64, List.take_length, List.drop_zero]
  · decide

/-- C10: on a `Buffer`-backed instance, `read(p, len)` is total (the model
returns a plain list; the source has no throw in this path): it returns
`buffer.slice(p, p + L)` where `L` is `len` when `len > 0` and `position`
otherwise; the result has length `min L (capacity - p)` (truncated
subtraction), so a window past capacity is silently truncated and a start
at or past capacity yields `[]`. -/
theorem C10_read_total_clamped :
    ∀ (b : Binary) (p : Nat) (len : Option Int),
      b.read p len = (b.buffer.drop p).take (effectiveLen b len) ∧
      (b.read p len).length = min (effectiveLen b len) (b.buffer.length - p) ∧
      (b.buffer.length ≤ p → b.read p len = []) := by
  intro b p len
  refine ⟨rfl, ?_, ?_⟩
  · simp [Binary.read, List.length_take, List.length_drop]
  · intro hp
    simp [Binary.read, List.drop_eq_nil_of_le hp]

/-- Witness for C10 at a concrete input: reading from offset 5 of a 3-byte
store returns the empty sequence. -/
theorem C10_witness :
    (Binary.ofBytes [1, 2, 3] none).read 5 (some 2) = [] :=
  (C10_read_total_clamped (Binary.ofBytes [1, 2, 3] none) 5 (some 2)).2.2 (by decide)

/-- C7: an omitted or non-positive `length` defaults to the cursor value
`this.position` (the value's total logical length), not to the bytes
remaining from the requested start: `read(0)` on a value holding
`[10,20,30]` returns all 3 bytes, `read(1,1)` returns `[20]`, and on a
store `[1,2,3,0,0]` with `position = 3`, `read(2)` returns 3 bytes
`[3,0,0]` (a "remaining from offset 2" default would return 1 byte). -/
theorem C7_read_default_length :
    (∀ (b : Binary) (p : Nat), b.read p none = (b.buffer.drop p).take b.position) ∧
    (∀ (b : Binary) (p : Nat) (l : Int), l ≤ 0 → b.read p (some l) = b.read p none) ∧
    (Binary.ofBytes [10, 20, 30] none).read 0 none = [10, 20, 30] ∧
    (Binary.ofBytes [10, 20, 30] none).read 1 (some 1) = [20] ∧
    (Binary.mk 0 [1, 2, 3, 0, 0] 3).read 2 none = [3, 0, 0] := by
  refine ⟨fun b p => rfl, ?_, by decide, by decide, by decide⟩
  intro b p l hl
  simp [Binary.read, effectiveLen, if_neg (by omega : ¬ (0 : Int) < l)]

/-- Witness for C7: a negative explicit length behaves like the default. -/
theorem C7_witness :
    (Binary.ofBytes [10, 20, 30] none).read 1 (some (-2)) =
      (Binary.ofBytes [10, 20, 30] none).read 1 none :=
  C7_read_default_length.2.1 (Binary.ofBytes [10, 20, 30] none) 1 (-2) (by decide)

/-- C1 counterexample: the invariant `position ≤ capacity` is broken by
`write` when the offset lies past the current capacity.  On a 3-byte value,
`write([9], 10)` grows the store only to `3 + 1 = 4` bytes but sets
`position = max(3, 10 + 1) = 11 > 4`. -/
theorem C1_counterexample :
    ¬ (((Binary.ofBytes [1, 2, 3] none).write [9] (some 10)).position ≤
        ((Binary.ofBytes [1, 2, 3] none).write [9] (some 10)).buffer.length) := by decide

/-- C1 (amended): `position ≤ capacity` holds after every construction and
is preserved by every successful `put`; it is preserved by
`write(data, offset)` whenever `offset ≤ current capacity` — in particular
always when the offset is omitted and defaults to `position` — but a write
whose offset exceeds the capacity grows the store only by `data.length`
bytes and can leave `position > capacity`. -/
theorem C1_invariant_amended :
    Binary.mkEmpty.position ≤ Binary.mkEmpty.buffer.length ∧
    (∀ st : Nat, (Binary.ofSubtype st).position ≤ (Binary.ofSubtype st).buffer.length) ∧
    (∀ (bs : List Nat) (st : Option Nat),
      (Binary.ofBytes bs st).position ≤ (Binary.ofBytes bs st).buffer.length) ∧
    (∀ (s : List Nat) (st : Option Nat),
      (Binary.ofString s st).position ≤ (Binary.ofString s st).buffer.length) ∧
    (∀ (b : Binary) (a : PutArg) (b' : Binary),
      b.position ≤ b.buffer.length → b.put a = .ok b' →
        b'.position ≤ b'.buffer.length) ∧
    (∀ (b : Binary) (data : List Nat) (off : Nat),
      b.position ≤ b.buffer.length → off ≤ b.buffer.length →
        (b.write data (some off)).position ≤ (b.write data (some off)).buffer.length) ∧
    (∀ (b : Binary) (data : List Nat),
      b.position ≤ b.buffer.length →
        (b.write data none).position ≤ (b.write data none).buffer.length) := by
  refine ⟨Nat.zero_le _, fun st => Nat.zero_le _,
    fun bs st => le_refl _, fun s st => length_le_length_utf8Encode s, ?_, ?_, ?_⟩
  · intro b a b' h1 h2
    obtain ⟨hpos, -, hcase⟩ := put_ok_inv h2
    rcases hcase with ⟨hlt, hbuf⟩ | ⟨hge, hbuf⟩ <;>
      rw [hpos, hbuf] <;>
      simp only [List.length_set, List.length_append, List.length_replicate, BUFFER_SIZE] <;>
      omega
  · intro b data off h1 h2
    rw [write_position_eq, length_write_buffer]
    simp only [Option.getD_some]
    split <;> omega
  · intro b data h1
    rw [write_position_eq, length_write_buffer]
    simp only [Option.getD_none]
    split <;> omega

/-- Witness for C1 (amended) at a concrete input: the scenario write
`write([9,9], 1)` on a value built from `[1,2,3]` keeps the invariant. -/
theorem C1_witness :
    ((Binary.ofBytes [1, 2, 3] none).write [9, 9] (some 1)).position ≤
      ((Binary.ofBytes [1, 2, 3] none).write [9, 9] (some 1)).buffer.length :=
  C1_invariant_amended.2.2.2.2.2.1 (Binary.ofBytes [1, 2, 3] none) [9, 9] 1
    (by decide) (by decide)

/-- C6 counterexample: "data is copied into the store starting at offset"
fails when the offset exceeds the old capacity: on a 3-byte value,
`write([9,9,9,9], 5)` reallocates only `3 + 4 = 7` bytes, so the window
`[5, 9)` of the store holds just `[9, 9]` — the last two data bytes are
dropped, not copied. -/
theorem C6_counterexample :
    ¬ ((((Binary.ofBytes [1, 2, 3] none).write [9, 9, 9, 9] (some 5)).buffer.drop 5).take 4
        = [9, 9, 9, 9]) := by decide

/-- C6 (amended): when `offset + data.length` exceeds the capacity the
store is reallocated to exactly `capacity + data.length` bytes; store bytes
outside the window `[offset, offset + data.length)` keep their old values
(on growth the old content is copied to the front first); each data byte is
copied to `offset + k` *provided that index falls inside the new store* —
bytes landing beyond it (possible exactly when `offset` exceeds the old
capacity) are dropped; `position` becomes `max(position, offset +
data.length)`; and the scenario holds: from `[1,2,3]`, `write([9,9], 1)`
gives logical content `[1,9,9]` with `position = 3`. -/
theorem C6_write_amended :
    (∀ (b : Binary) (data : List Nat) (offset : Nat),
      b.buffer.length < offset + data.length →
        (b.write data (some offset)).buffer.length = b.buffer.length + data.length) ∧
    (∀ (b : Binary) (data : List Nat) (offset i : Nat),
      i < b.buffer.length → (i < offset ∨ offset + data.length ≤ i) →
        (b.write data (some offset)).buffer[i]? = b.buffer[i]?) ∧
    (∀ (b : Binary) (data : List Nat) (offset k : Nat) (hk : k < data.length),
      offset + k < (b.write data (some offset)).buffer.length →
        (b.write data (some offset)).buffer[offset + k]? = some (data[k] % 256)) ∧
    (∀ (b : Binary) (data : List Nat) (offset : Nat),
      (b.write data (some offset)).position = max b.position (offset + data.length)) ∧
    ((Binary.ofBytes [1, 2, 3] none).write [9, 9] (some 1)).buffer.take
        ((Binary.ofBytes [1, 2, 3] none).write [9, 9] (some 1)).position = [1, 9, 9] ∧
    ((Binary.ofBytes [1, 2, 3] none).write [9, 9] (some 1)).position = 3 := by
  refine ⟨?_, ?_, ?_, fun b data offset => write_position_eq b data (some offset),
    by decide, by decide⟩
  · intro b data offset h
    rw [length_write_buffer]
    simp only [Option.getD_some]
    rw [if_pos h]
  · intro b data offset i hi hside
    rw [write_buffer_eq]
    have hbase : (if b.buffer.length < offset + data.length then
        b.buffer ++ List.replicate data.length 0 else b.buffer)[i]? = b.buffer[i]? := by
      split
      · exact List.getElem?_append_left hi
      · rfl
    rcases hside with h | h
    · rw [getElem?_writeBytes_low data _ _ _ h, hbase]
    · rw [getElem?_writeBytes_high data _ _ _ h, hbase]
  · intro b data offset k hk hin
    rw [write_buffer_eq] at hin ⊢
    rw [length_writeBytes] at hin
    exact getElem?_writeBytes_data data _ offset k hk hin

/-- Witness for C6 (amended) at concrete inputs: the growth from the far
write is exactly `3 + 4` bytes, and data byte 0 of the in-range write lands
at store index `1 + 0`. -/
theorem C6_witness :
    ((Binary.ofBytes [1, 2, 3] none).write [9, 9, 9, 9] (some 5)).buffer.length
      = (Binary.ofBytes [1, 2, 3] none).buffer.length + [9, 9, 9, 9].length ∧
    ((Binary.ofBytes [1, 2, 3] none).write [9, 9] (some 1)).buffer[1 + 0]?
      = some (9 % 256) := by
  constructor
  · exact C6_write_amended.1 (Binary.ofBytes [1, 2, 3] none) [9, 9, 9, 9] 5 (by decide)
  · exact C6_write_amended.2.2.1 (Binary.ofBytes [1, 2, 3] none) [9, 9] 1 0
      (by decide) (by decide)

/-- C8: when `capacity = position`, a successful `put` reallocates to
exactly `capacity + 256` bytes with the old content (all of `[0, old
position)`) preserved as a prefix, writes the decoded byte at the old
position and increments the cursor; when `capacity > position` it writes
in place without growing. -/
theorem C8_put_growth_exact :
    (∀ (b : Binary) (a : PutArg) (b' : Binary),
      b.buffer.length = b.position → b.put a = .ok b' →
        b'.buffer.length = b.buffer.length + 256 ∧
        b'.buffer.take b.position = b.buffer ∧
        b'.buffer[b.position]? = some (byteOf a.decoded) ∧
        b'.position = b.position + 1) ∧
    (∀ (b : Binary) (a : PutArg) (b' : Binary),
      b.position < b.buffer.length → b.put a = .ok b' →
        b'.buffer = b.buffer.set b.position (byteOf a.decoded) ∧
        b'.buffer.length = b.buffer.length ∧
        b'.position = b.position + 1) := by
  constructor
  · intro b a b' h1 h2
    obtain ⟨hpos, -, hcase⟩ := put_ok_inv h2
    rcases hcase with ⟨hlt, -⟩ | ⟨-, hbuf⟩
    · omega
    refine ⟨?_, ?_, ?_, hpos⟩
    · rw [hbuf]
      simp only [List.length_set, List.length_append, List.length_replicate, BUFFER_SIZE]
    · rw [hbuf, List.set_take, List.take_append_of_le_length (by omega),
        List.take_of_length_le (by omega), List.set_eq_of_length_le (by omega)]
    · rw [hbuf]
      refine List.getElem?_set_self ?_
      simp only [List.length_append, List.length_replicate, BUFFER_SIZE]
      omega
  · intro b a b' h1 h2
    obtain ⟨hpos, -, hcase⟩ := put_ok_inv h2
    rcases hcase with ⟨-, hbuf⟩ | ⟨hge, -⟩
    · exact ⟨hbuf, by simp [hbuf], hpos⟩
    · omega

set_option maxRecDepth 10000 in
/-- Witness for C8 at concrete inputs: appending to a full (empty-store)
value reallocates to 256 bytes, and appending to a fresh default value
writes in place. -/
theorem C8_witness :
    (Binary.mk 0 ((([] : List Nat) ++ List.replicate BUFFER_SIZE 0).set 0
        (byteOf (PutArg.num 7).decoded)) (0 + 1)).buffer.length
      = (Binary.mk 0 ([] : List Nat) 0).buffer.length + 256 ∧
    (Binary.mk 0 ((List.replicate BUFFER_SIZE (0 : Nat)).set 0
        (byteOf (PutArg.num 65).decoded)) (0 + 1)).buffer
      = Binary.mkEmpty.buffer.set Binary.mkEmpty.position (byteOf (PutArg.num 65).decoded) := by
  constructor
  · have h2 : (Binary.mk 0 ([] : List Nat) 0).put (PutArg.num 7)
        = Except.ok (Binary.mk 0 ((([] : List Nat) ++ List.replicate BUFFER_SIZE 0).set 0
            (byteOf (PutArg.num 7).decoded)) (0 + 1)) := rfl
    exact (C8_put_growth_exact.1 (Binary.mk 0 ([] : List Nat) 0) (PutArg.num 7) _ rfl h2).1
  · have h2 : Binary.mkEmpty.put (PutArg.num 65)
        = Except.ok (Binary.mk 0 ((List.replicate BUFFER_SIZE (0 : Nat)).set 0
            (byteOf (PutArg.num 65).decoded)) (0 + 1)) := rfl
    have h1 : Binary.mkEmpty.position < Binary.mkEmpty.buffer.length := by
      show 0 < (List.replicate BUFFER_SIZE (0 : Nat)).length
      rw [List.length_replicate]
      decide
    exact (C8_put_growth_exact.2 Binary.mkEmpty (PutArg.num 65) _ h1 h2).1

end TBinary
